import Mathlib

/-!
Verification development for the "pack-for-llm" tool
(`src/pack-for-llm-js/extension.js`).

The program has two parts: a resolver that expands a list of
file/directory entry points into a flat list of file paths
(`getAllFilesFromDir`, `getFilesFromResources`), and a formatter that
renders those files into one annotated text document (`packFiles`,
`getLanguageId`).  The filesystem is modelled as a finite rose tree
(`FSNode`); paths are lists of name segments, so `path.join dir name`
is `dir ++ [name]` and the basename is the last segment.  Host-editor
facilities that the code only calls out to (the workspace-relative
display path, the wall clock, the message popups) are modelled as
explicit parameters and returned data: `PackEnv` carries the clock
string and the display-path function, and the warnings that the code
shows with `showErrorMessage` inside `packFiles` are returned as a
list alongside the packed document.
-/

/-- A filesystem node: a regular file carrying the outcome of reading it
(`Except` error on a read failure), its byte size and its mtime ISO
string, or a directory with named children in filesystem listing
order. -/
inductive FSNode where
  | file : Except String String → Nat → String → FSNode
  | dir : List (String × FSNode) → FSNode
deriving Repr

/-- The string "." used by the hidden-entry check `file.startsWith('.')`. -/
def hiddenDot : String := "."

/-- JS `String.prototype.startsWith`, by character-list comparison. -/
def strStartsWith (s pre : String) : Bool := pre.data.isPrefixOf s.data

/-- JS `String.prototype.toLowerCase`, characterwise (the extensions the
table distinguishes are ASCII). -/
def toLowerStr (s : String) : String := String.mk (s.data.map Char.toLower)

/-- Look up a name among a directory's children (filesystem name resolution
for one segment). -/
def lookupChild : List (String × FSNode) → String → Option FSNode
  | [], _ => none
  | (nm, child) :: rest, n => if nm = n then some child else lookupChild rest n

/-- Resolve a path (list of segments) against a filesystem tree.  `none`
models `fs.statSync` throwing: the path does not exist or cannot be
reached. -/
def FSNode.lookup : FSNode → List String → Option FSNode
  | node, [] => some node
  | FSNode.dir children, n :: rest =>
      match lookupChild children n with
      | some c => FSNode.lookup c rest
      | none => none
  | FSNode.file _ _ _, _ :: _ => none

/-- `getAllFilesFromDir`'s `files.forEach` loop body, iterated over the
listed children of `dirPath` (source lines 46-60): each child is
skipped when its name starts with `.`, recursed into when it is a
directory, and appended to the result when it is a file. -/
def walkEntries : List String → List (String × FSNode) → List (List String)
  | _, [] => []
  | dirPath, (nm, FSNode.file _ _ _) :: rest =>
      (if strStartsWith nm hiddenDot then [] else [dirPath ++ [nm]])
        ++ walkEntries dirPath rest
  | dirPath, (nm, FSNode.dir cs) :: rest =>
      (if strStartsWith nm hiddenDot then []
       else walkEntries (dirPath ++ [nm]) cs)
        ++ walkEntries dirPath rest

/-- `getAllFilesFromDir(dirPath)` (source lines 43-63): recursively list
all non-hidden files under a directory node.  On a file node
`fs.readdirSync` has nothing to list. -/
def getAllFilesFromDir (dirPath : List String) : FSNode → List (List String)
  | FSNode.file _ _ _ => []
  | FSNode.dir children => walkEntries dirPath children

/-- `getFilesFromResources(resources)` (source lines 70-87): for each
entry, `fs.statSync` it (a failed stat throws, modelled as
`Except.error`, aborting the whole loop); directories are expanded with
`getAllFilesFromDir` and files are appended directly. -/
def getFilesFromResources (root : FSNode) : List (List String) → Except String (List (List String))
  | [] => Except.ok []
  | r :: rest =>
      match FSNode.lookup root r with
      | none => Except.error (("ENOENT: no such file or directory ") ++ String.intercalate ("/") r)
      | some (FSNode.dir cs) =>
          (getFilesFromResources root rest).map
            (fun tail => walkEntries r cs ++ tail)
      | some (FSNode.file _ _ _) =>
          (getFilesFromResources root rest).map (fun tail => r :: tail)

/-- Last path segment (what `path.extname` extracts the extension from). -/
def basename : List String → String
  | [] => ""
  | [s] => s
  | _ :: s :: rest => basename (s :: rest)

/-- The suffix of a character list starting at its last `.`, if any. -/
def lastDotSuffix : List Char → Option (List Char)
  | [] => none
  | c :: cs =>
      match lastDotSuffix cs with
      | some s => some s
      | none => if c = ('.') then some (c :: cs) else none

/-- `path.extname` on a basename: everything from the last `.` to the
end, except that a `.` in first position does not start an extension
(so `.env` has no extension while `.env.local` has `.local`). -/
def extname (name : String) : String :=
  match name.data with
  | [] => ""
  | _ :: rest =>
      match lastDotSuffix rest with
      | some s => String.mk s
      | none => ""

/-- The static extension-to-language table (source lines 12-32). -/
def langMap : List (String × String) :=
  [(".js", "javascript"), (".ts", "typescript"), (".py", "python"),
   (".html", "html"), (".css", "css"), (".json", "json"),
   (".md", "markdown"), (".java", "java"), (".cpp", "cpp"), (".c", "c"),
   (".go", "go"), (".rb", "ruby"), (".php", "php"), (".rs", "rust"),
   (".swift", "swift"), (".sh", "shell"), (".jsx", "javascriptreact"),
   (".tsx", "typescriptreact"), (".vue", "vue")]

/-- `getLanguageId(filePath)` (source lines 10-35): lowercase the
extension of the path and look it up in `langMap`, defaulting to the
empty string. -/
def getLanguageId (filePath : List String) : String :=
  match List.lookup (toLowerStr (extname (basename filePath))) langMap with
  | some lang => lang
  | none => ""

/-- The formatter's environment: the clock reading used for the
`# Generated:` line (`new Date().toISOString()`) and the host-provided
display-path function (`vscode.workspace.getWorkspaceFolder` plus
`path.relative`, or the absolute path when no workspace folder
matches). -/
structure PackEnv where
  now : String
  display : List String → String

/-- `dividerLength` (source line 97). -/
def dividerLength : Nat := 80

/-- `'='.repeat(dividerLength)`. -/
def eqDivider : String := String.mk (List.replicate dividerLength ('='))

/-- `'#'.repeat(dividerLength)`. -/
def hashDivider : String := String.mk (List.replicate dividerLength ('#'))

/-- `(fileStats.size / 1024).toFixed(1)`: the byte size divided by 1024,
rendered with one decimal digit.  Modelled in exact arithmetic with
round-half-up; the claims do not depend on tie-breaking at the
floating-point rounding boundary. -/
def toFixed1KB (sizeBytes : Nat) : String :=
  let tenths := (sizeBytes * 10 + 512) / 1024
  toString (tenths / 10) ++ (".") ++ toString (tenths % 10)

/-- `fs.readFileSync(filePath, 'utf8')` followed by
`fs.statSync(filePath)` (source lines 121-122): succeed with the
content, size and mtime, or throw (`Except.error`). -/
def readFileWithStats (root : FSNode) (p : List String) : Except String (String × Nat × String) :=
  match FSNode.lookup root p with
  | some (FSNode.file (Except.ok content) size mtime) => Except.ok (content, size, mtime)
  | some (FSNode.file (Except.error e) _ _) => Except.error e
  | some (FSNode.dir _) => Except.error ("EISDIR: illegal operation on a directory")
  | none => Except.error (("ENOENT: no such file or directory ") ++ String.intercalate ("/") p)

/-- One iteration of `packFiles`' per-file `forEach` body (source lines
114-148): either the formatted block for the file (header lines, the
optional language line, the fenced or raw content, the `=` separator),
or the warning message shown by `showErrorMessage` when reading the
file threw. -/
def fileBlock (root : FSNode) (disp : List String → String) (total : Nat) (index : Nat) (p : List String) : Except String String :=
  let relativePath := disp p
  let lang := getLanguageId p
  match readFileWithStats root p with
  | Except.error err => Except.error (("Error reading file ") ++ relativePath ++ (": ") ++ err)
  | Except.ok (content, size, mtime) =>
      Except.ok
        (hashDivider ++ ("\n")
          ++ (("# FILE ") ++ toString (index + 1) ++ ("/") ++ toString total ++ (": ") ++ relativePath ++ ("\n"))
          ++ (("# Size: ") ++ toFixed1KB size ++ (" KB | Last modified: ") ++ mtime ++ ("\n"))
          ++ (if lang = "" then "" else ("# Language: ") ++ lang ++ ("\n"))
          ++ (hashDivider ++ ("\n\n"))
          ++ (if lang = "" then content ++ ("\n\n")
              else ("```") ++ lang ++ ("\n") ++ content ++ ("\n```\n\n"))
          ++ (("\n") ++ eqDivider ++ ("\n\n")))

/-- The formatter's per-file loop over the enumerated file list, starting
at `index`: concatenates the successful blocks in order and collects,
in order, the warnings of the files whose read threw. -/
def packBody (root : FSNode) (disp : List String → String) (total : Nat) : Nat → List (List String) → String × List String
  | _, [] => ("", [])
  | index, p :: rest =>
      let tail := packBody root disp total (index + 1) rest
      match fileBlock root disp total index p with
      | Except.ok b => (b ++ tail.1, tail.2)
      | Except.error w => (tail.1, w :: tail.2)

/-- The table-of-contents `forEach` (source lines 106-110), iterated from
a starting index: one line `${index + 1}. ${relativePath}` per file. -/
def tocLines (disp : List String → String) : Nat → List (List String) → String
  | _, [] => ""
  | index, p :: rest =>
      toString (index + 1) ++ (". ") ++ disp p ++ ("\n") ++ tocLines disp (index + 1) rest

/-- `packFiles(files)` (source lines 95-152): build the packed document
(title, summary, table of contents, divider, then one block per
readable file) and collect the warnings shown for unreadable files. -/
def packFiles (root : FSNode) (env : PackEnv) (files : List (List String)) : String × List String :=
  let packedContent := ("# Project Files Pack for LLM\n")
  let packedContent := packedContent ++ (("# Total files: ") ++ toString files.length ++ ("\n"))
  let packedContent := packedContent ++ (("# Generated: ") ++ env.now ++ ("\n\n"))
  let packedContent := packedContent ++ ("## Files included:\n")
  let packedContent := packedContent ++ tocLines env.display 0 files
  let packedContent := packedContent ++ (("\n") ++ eqDivider ++ ("\n\n"))
  let bodyWarnings := packBody root env.display files.length 0 files
  (packedContent ++ bodyWarnings.1, bodyWarnings.2)

/-- Outcome of one invocation of the `extension.packForLlm` command
handler, after resource selection: the two `showWarningMessage` exits,
the `showErrorMessage` exit of the `catch`, or the packed document
(with the per-file warnings emitted while packing). -/
inductive PackOutcome where
  | warnNoSelection : PackOutcome
  | warnNoFiles : PackOutcome
  | packed : String → List String → PackOutcome
  | failed : String → PackOutcome
deriving Repr

/-- The command handler's core (source lines 196-231): bail out with a
warning when nothing is selected, resolve the selection (an error
aborts into the `catch`, producing no document), bail out with a
warning when resolution finds no files, otherwise pack. -/
def runPack (root : FSNode) (env : PackEnv) (selectedResources : List (List String)) : PackOutcome :=
  if selectedResources.length = 0 then PackOutcome.warnNoSelection
  else
    match getFilesFromResources root selectedResources with
    | Except.error e => PackOutcome.failed (("Error packing files: ") ++ e)
    | Except.ok allFiles =>
        if allFiles.length = 0 then PackOutcome.warnNoFiles
        else
          let r := packFiles root env allFiles
          PackOutcome.packed r.1 r.2

/-- Concatenation of a list of strings, in order. -/
def concatStrs : List String → String
  | [] => ""
  | s :: rest => s ++ concatStrs rest

/-- The successful per-file blocks of the formatter loop, in order,
starting at index `i`. -/
def okBlocks (root : FSNode) (disp : List String → String) (total : Nat) : Nat → List (List String) → List String
  | _, [] => []
  | i, p :: rest =>
      match fileBlock root disp total i p with
      | Except.ok b => b :: okBlocks root disp total (i + 1) rest
      | Except.error _ => okBlocks root disp total (i + 1) rest

/-- The warnings of the formatter loop, in order, starting at index `i`. -/
def failWarnings (root : FSNode) (disp : List String → String) (total : Nat) : Nat → List (List String) → List String
  | _, [] => []
  | i, p :: rest =>
      match fileBlock root disp total i p with
      | Except.ok _ => failWarnings root disp total (i + 1) rest
      | Except.error w => w :: failWarnings root disp total (i + 1) rest

/-- The document header `packFiles` emits before the per-file blocks:
title, summary, table of contents and the first divider. -/
def packHeader (env : PackEnv) (files : List (List String)) : String :=
  ("# Project Files Pack for LLM\n")
    ++ (("# Total files: ") ++ toString files.length ++ ("\n"))
    ++ (("# Generated: ") ++ env.now ++ ("\n\n"))
    ++ ("## Files included:\n")
    ++ tocLines env.display 0 files
    ++ (("\n") ++ eqDivider ++ ("\n\n"))

/-- The table of contents as a list of lines, one per file, numbered from
`i + 1`. -/
def tocList (disp : List String → String) : Nat → List (List String) → List String
  | _, [] => []
  | i, p :: rest =>
      (toString (i + 1) ++ (". ") ++ disp p ++ ("\n")) :: tocList disp (i + 1) rest

/-- What a single entry point resolves to on its own: a directory expands
to its recursive non-hidden file listing, a file to itself. -/
def resolveOne (root : FSNode) (r : List String) : List (List String) :=
  match FSNode.lookup root r with
  | some (FSNode.dir cs) => walkEntries r cs
  | some (FSNode.file _ _ _) => [r]
  | none => []

/-- Example filesystem used by the concrete witnesses: a project with a
plain file, a subdirectory holding a visible file, a hidden file and a
hidden directory, an unreadable file, and files with mapped and
unmapped extensions. -/
def exampleFS : FSNode :=
  FSNode.dir
    [("proj", FSNode.dir
      [("a.py", FSNode.file (Except.ok ("print(1)\n")) 9 ("2025-01-01T00:00:00.000Z")),
       ("sub", FSNode.dir
         [("b.js", FSNode.file (Except.ok ("let x = 1;\n")) 11 ("2025-01-02T00:00:00.000Z")),
          (".env", FSNode.file (Except.ok ("SECRET=1\n")) 9 ("2025-01-03T00:00:00.000Z")),
          (".git", FSNode.dir
            [("config", FSNode.file (Except.ok ("[core]\n")) 7 ("2025-01-04T00:00:00.000Z"))])]),
       ("bad.txt", FSNode.file (Except.error ("EACCES: permission denied")) 5 ("2025-01-05T00:00:00.000Z")),
       ("c.rs", FSNode.file (Except.ok ("fn main()\n")) 13 ("2025-01-06T00:00:00.000Z")),
       ("d.xyz", FSNode.file (Except.ok ("data\n")) 5 ("2025-01-07T00:00:00.000Z"))])]

/-- The `sub` directory of `exampleFS`, used as a directory entry point. -/
def exampleSub : FSNode :=
  FSNode.dir
    [("b.js", FSNode.file (Except.ok ("let x = 1;\n")) 11 ("2025-01-02T00:00:00.000Z")),
     (".env", FSNode.file (Except.ok ("SECRET=1\n")) 9 ("2025-01-03T00:00:00.000Z")),
     (".git", FSNode.dir
       [("config", FSNode.file (Except.ok ("[core]\n")) 7 ("2025-01-04T00:00:00.000Z"))])]

/-- A directory whose only entry is hidden: resolving it yields no
files. -/
def exampleOnlyHidden : FSNode :=
  FSNode.dir [(".secret", FSNode.file (Except.ok ("s\n")) 2 ("2025-01-08T00:00:00.000Z"))]

/-- Example environment: a fixed clock and a display function joining the
segments with slashes. -/
def exampleEnv : PackEnv :=
  PackEnv.mk ("2025-06-01T12:00:00.000Z") (fun p => String.intercalate ("/") p)

theorem strAppendAssoc (a b c : String) : a ++ b ++ c = a ++ (b ++ c) := by
  cases a with
  | mk da =>
    cases b with
    | mk db =>
      cases c with
      | mk dc =>
        show String.mk ((da ++ db) ++ dc) = String.mk (da ++ (db ++ dc))
        rw [List.append_assoc]

theorem strDataAppend (a b : String) : (a ++ b).data = a.data ++ b.data := by
  cases a
  cases b
  rfl

theorem strExt (a b : String) (h : a.data = b.data) : a = b := by
  cases a
  cases b
  cases h
  rfl

theorem strEmptyAppend (s : String) : ("") ++ s = s := by
  cases s
  rfl

theorem mem_walkEntries (dirPath p : List String) (entries : List (String × FSNode))
    (h : p ∈ walkEntries dirPath entries) :
    ∃ rest, p = dirPath ++ rest ∧ rest ≠ [] ∧ ∀ s ∈ rest, strStartsWith s hiddenDot = false := by
  induction dirPath, entries using walkEntries.induct generalizing p with
  | case1 d => simp [walkEntries] at h
  | case2 d nm res sz mt rest ih =>
    simp only [walkEntries] at h
    rcases List.mem_append.mp h with h1 | h2
    · by_cases hn : strStartsWith nm hiddenDot
      · simp [hn] at h1
      · simp only [if_neg hn, List.mem_singleton] at h1
        refine ⟨[nm], h1, by simp, ?_⟩
        intro s hs
        rw [List.mem_singleton] at hs
        subst hs
        simpa using hn
    · exact ih p h2
  | case3 d nm cs rest ih1 ih2 =>
    simp only [walkEntries] at h
    rcases List.mem_append.mp h with h1 | h2
    · by_cases hn : strStartsWith nm hiddenDot
      · simp [hn] at h1
      · rw [if_neg hn] at h1
        obtain ⟨r, hr, _, hall⟩ := ih1 p h1
        refine ⟨nm :: r, ?_, by simp, ?_⟩
        · rw [hr, List.append_assoc]
          rfl
        · intro s hs
          rcases List.mem_cons.mp hs with rfl | hs2
          · simpa using hn
          · exact hall s hs2
    · exact ih2 p h2

/-- C1: every path produced by the recursive directory traversal extends
the entry directory by at least one segment, and none of those added
segments (the basename nor any ancestor directory basename below the
entry point) starts with a dot: hidden entries are pruned at every
depth and hidden subdirectories are never descended into. -/
theorem getAllFilesFromDir_no_hidden (node : FSNode) (dirPath p : List String)
    (h : p ∈ getAllFilesFromDir dirPath node) :
    ∃ rest, p = dirPath ++ rest ∧ rest ≠ [] ∧ ∀ s ∈ rest, strStartsWith s hiddenDot = false := by
  cases node with
  | file res sz mt => simp [getAllFilesFromDir] at h
  | dir children =>
    exact mem_walkEntries dirPath p children (by simpa [getAllFilesFromDir] using h)

theorem getAllFilesFromDir_no_hidden_witness :
    ∃ rest, (["proj", "sub", "b.js"] : List String) = ["proj", "sub"] ++ rest ∧ rest ≠ [] ∧
      ∀ s ∈ rest, strStartsWith s hiddenDot = false :=
  getAllFilesFromDir_no_hidden exampleSub (["proj", "sub"]) (["proj", "sub", "b.js"])
    (by simp [getAllFilesFromDir, exampleSub, walkEntries, strStartsWith, hiddenDot])

theorem getFilesFromResources_error_of_bad_entry (root : FSNode)
    (resources : List (List String)) (r : List String)
    (hr : r ∈ resources) (hnone : FSNode.lookup root r = none) :
    ∃ e, getFilesFromResources root resources = Except.error e := by
  induction resources with
  | nil => cases hr
  | cons a rest ih =>
    cases ha : FSNode.lookup root a with
    | none =>
      exact ⟨("ENOENT: no such file or directory ") ++ String.intercalate ("/") a,
        by simp [getFilesFromResources, ha]⟩
    | some node =>
      have hr2 : r ∈ rest := by
        rcases List.mem_cons.mp hr with rfl | h2
        · rw [ha] at hnone
          cases hnone
        · exact h2
      obtain ⟨e, he⟩ := ih hr2
      cases node with
      | dir cs => exact ⟨e, by simp [getFilesFromResources, ha, he, Except.map]⟩
      | file res sz mt => exact ⟨e, by simp [getFilesFromResources, ha, he, Except.map]⟩

/-- C3: an entry path on which `fs.statSync` throws (it does not exist or
is unreadable) makes resolution fail with the thrown error: no partial
resolved list is returned, and the whole invocation lands in the
`catch` branch, producing an error popup and no document. -/
theorem bad_entry_aborts_whole_operation (root : FSNode) (env : PackEnv)
    (resources : List (List String)) (r : List String)
    (hr : r ∈ resources) (hnone : FSNode.lookup root r = none) :
    ∃ e, getFilesFromResources root resources = Except.error e ∧
      (∀ l, getFilesFromResources root resources ≠ Except.ok l) ∧
      runPack root env resources = PackOutcome.failed (("Error packing files: ") ++ e) := by
  obtain ⟨e, he⟩ := getFilesFromResources_error_of_bad_entry root resources r hr hnone
  refine ⟨e, he, ?_, ?_⟩
  · intro l hl
    rw [he] at hl
    cases hl
  · have hne : resources.length ≠ 0 := by
      intro h0
      rw [List.length_eq_zero] at h0
      subst h0
      cases hr
    simp [runPack, hne, he]

theorem bad_entry_aborts_whole_operation_witness :
    ∃ e, getFilesFromResources exampleFS ([["proj", "a.py"], ["proj", "missing.txt"]]) = Except.error e ∧
      (∀ l, getFilesFromResources exampleFS ([["proj", "a.py"], ["proj", "missing.txt"]]) ≠ Except.ok l) ∧
      runPack exampleFS exampleEnv ([["proj", "a.py"], ["proj", "missing.txt"]]) =
        PackOutcome.failed (("Error packing files: ") ++ e) :=
  bad_entry_aborts_whole_operation exampleFS exampleEnv
    ([["proj", "a.py"], ["proj", "missing.txt"]]) (["proj", "missing.txt"])
    (by simp)
    (by simp [exampleFS, FSNode.lookup, lookupChild])

/-- C4: an entry that resolves to a regular file is appended to the
resolved list directly, whatever its basename looks like (in
particular also when it starts with a dot): hidden filtering applies
only inside directory traversal. -/
theorem direct_file_entry_included (root : FSNode) (resources : List (List String))
    (r : List String) (res : Except String String) (sz : Nat) (mt : String)
    (l : List (List String))
    (hr : r ∈ resources) (hfile : FSNode.lookup root r = some (FSNode.file res sz mt))
    (hok : getFilesFromResources root resources = Except.ok l) : r ∈ l := by
  induction resources generalizing l with
  | nil => cases hr
  | cons a rest ih =>
    cases ha : FSNode.lookup root a with
    | none => simp [getFilesFromResources, ha] at hok
    | some node =>
      cases node with
      | dir cs =>
        cases hrest : getFilesFromResources root rest with
        | error e => simp [getFilesFromResources, ha, hrest, Except.map] at hok
        | ok tail =>
          have hl : walkEntries a cs ++ tail = l := by
            have := hok
            simp [getFilesFromResources, ha, hrest, Except.map] at this
            exact this
          have hr2 : r ∈ rest := by
            rcases List.mem_cons.mp hr with rfl | h2
            · rw [ha] at hfile
              cases hfile
            · exact h2
          have : r ∈ tail := ih tail hr2 hrest
          rw [← hl]
          exact List.mem_append_right _ this
      | file res2 sz2 mt2 =>
        cases hrest : getFilesFromResources root rest with
        | error e => simp [getFilesFromResources, ha, hrest, Except.map] at hok
        | ok tail =>
          have hl : a :: tail = l := by
            have := hok
            simp [getFilesFromResources, ha, hrest, Except.map] at this
            exact this
          rw [← hl]
          rcases List.mem_cons.mp hr with rfl | h2
          · exact List.mem_cons_self _ _
          · exact List.mem_cons_of_mem _ (ih tail h2 hrest)

theorem direct_file_entry_included_witness :
    (["proj", "sub", ".env"] : List String) ∈ ([["proj", "sub", ".env"], ["proj", "a.py"]] : List (List String)) :=
  direct_file_entry_included exampleFS ([["proj", "sub", ".env"], ["proj", "a.py"]])
    (["proj", "sub", ".env"]) (Except.ok ("SECRET=1\n")) 9 ("2025-01-03T00:00:00.000Z")
    ([["proj", "sub", ".env"], ["proj", "a.py"]])
    (by simp)
    (by simp [exampleFS, FSNode.lookup, lookupChild])
    (by simp [getFilesFromResources, exampleFS, FSNode.lookup, lookupChild, Except.map])

/-- C8: a successful resolution is exactly the concatenation, in entry
order, of what each entry resolves to on its own; consequently no
deduplication happens, and a file reachable from several entry points
is counted once per entry point that reaches it. -/
theorem resolved_list_is_concat_no_dedup (root : FSNode)
    (resources : List (List String)) (l : List (List String))
    (hok : getFilesFromResources root resources = Except.ok l) :
    l = (resources.map (resolveOne root)).flatten ∧
    ∀ p, l.count p = ((resources.map (resolveOne root)).map (List.count p)).sum := by
  have hmain : l = (resources.map (resolveOne root)).flatten := by
    induction resources generalizing l with
    | nil =>
      simp [getFilesFromResources] at hok
      simp [hok]
    | cons a rest ih =>
      cases ha : FSNode.lookup root a with
      | none => simp [getFilesFromResources, ha] at hok
      | some node =>
        cases node with
        | dir cs =>
          cases hrest : getFilesFromResources root rest with
          | error e => simp [getFilesFromResources, ha, hrest, Except.map] at hok
          | ok tail =>
            have hl : walkEntries a cs ++ tail = l := by
              have h2 := hok
              simp [getFilesFromResources, ha, hrest, Except.map] at h2
              exact h2
            rw [← hl, ih tail hrest]
            simp [resolveOne, ha]
        | file res sz mt =>
          cases hrest : getFilesFromResources root rest with
          | error e => simp [getFilesFromResources, ha, hrest, Except.map] at hok
          | ok tail =>
            have hl : a :: tail = l := by
              have h2 := hok
              simp [getFilesFromResources, ha, hrest, Except.map] at h2
              exact h2
            rw [← hl, ih tail hrest]
            simp [resolveOne, ha]
  refine ⟨hmain, ?_⟩
  intro p
  rw [hmain, List.count_flatten]

theorem resolved_list_is_concat_no_dedup_witness :
    ([["proj", "sub", "b.js"], ["proj", "sub", "b.js"]] : List (List String)) =
      (([["proj", "sub"], ["proj", "sub"]] : List (List String)).map (resolveOne exampleFS)).flatten ∧
    ∀ p, ([["proj", "sub", "b.js"], ["proj", "sub", "b.js"]] : List (List String)).count p =
      ((([["proj", "sub"], ["proj", "sub"]] : List (List String)).map (resolveOne exampleFS)).map (List.count p)).sum :=
  resolved_list_is_concat_no_dedup exampleFS ([["proj", "sub"], ["proj", "sub"]])
    ([["proj", "sub", "b.js"], ["proj", "sub", "b.js"]])
    (by simp [getFilesFromResources, exampleFS, FSNode.lookup, lookupChild, Except.map,
      walkEntries, strStartsWith, hiddenDot])

theorem packBody_eq (root : FSNode) (disp : List String → String) (total : Nat) :
    ∀ i files, packBody root disp total i files =
      (concatStrs (okBlocks root disp total i files), failWarnings root disp total i files) := by
  intro i files
  induction files generalizing i with
  | nil => rfl
  | cons p rest ih =>
    cases hb : fileBlock root disp total i p with
    | ok b => simp [packBody, okBlocks, failWarnings, concatStrs, hb, ih]
    | error w => simp [packBody, okBlocks, failWarnings, concatStrs, hb, ih]

theorem packFiles_eq (root : FSNode) (env : PackEnv) (files : List (List String)) :
    packFiles root env files =
      (packHeader env files ++ concatStrs (okBlocks root env.display files.length 0 files),
       failWarnings root env.display files.length 0 files) := by
  simp [packFiles, packHeader, packBody_eq]

theorem mem_failWarnings (root : FSNode) (disp : List String → String) (total : Nat)
    (p : List String) (e : String) :
    ∀ i files, p ∈ files → readFileWithStats root p = Except.error e →
      (("Error reading file ") ++ disp p ++ (": ") ++ e) ∈ failWarnings root disp total i files := by
  intro i files
  induction files generalizing i with
  | nil => intro h; cases h
  | cons a rest ih =>
    intro hmem he
    rcases List.mem_cons.mp hmem with rfl | h2
    · have hb : fileBlock root disp total i p =
          Except.error (("Error reading file ") ++ disp p ++ (": ") ++ e) := by
        simp [fileBlock, he]
      simp [failWarnings, hb]
    · cases hb : fileBlock root disp total i a with
      | ok b =>
        simpa [failWarnings, hb] using ih (i + 1) h2 he
      | error w =>
        simp [failWarnings, hb]
        exact Or.inr (ih (i + 1) h2 he)

theorem mem_okBlocks (root : FSNode) (disp : List String → String) (total : Nat) :
    ∀ files i j p b, files[j]? = some p →
      fileBlock root disp total (i + j) p = Except.ok b →
      b ∈ okBlocks root disp total i files := by
  intro files
  induction files with
  | nil => intro i j p b h; cases h
  | cons a rest ih =>
    intro i j p b hj hb
    cases j with
    | zero =>
      rw [List.getElem?_cons_zero] at hj
      cases hj
      simp only [Nat.add_zero] at hb
      simp [okBlocks, hb]
    | succ j2 =>
      rw [List.getElem?_cons_succ] at hj
      have harith : i + 1 + j2 = i + (j2 + 1) := by omega
      have hmem : b ∈ okBlocks root disp total (i + 1) rest :=
        ih (i + 1) j2 p b hj (by rw [harith]; exact hb)
      cases hbk : fileBlock root disp total i a with
      | ok b2 => simp [okBlocks, hbk, hmem]
      | error w => simpa [okBlocks, hbk] using hmem

theorem concatStrs_mem_split (b : String) (l : List String) (h : b ∈ l) :
    ∃ u v, concatStrs l = u ++ (b ++ v) := by
  induction l with
  | nil => cases h
  | cons a rest ih =>
    rcases List.mem_cons.mp h with rfl | h2
    · refine ⟨"", concatStrs rest, ?_⟩
      rw [strEmptyAppend]
      rfl
    · obtain ⟨u, v, huv⟩ := ih h2
      refine ⟨a ++ u, v, ?_⟩
      rw [strAppendAssoc, ← huv]
      rfl

/-- C2: a per-file read failure during formatting is non-fatal.  The
formatter's warning list contains a warning naming the offending
display path, the document consists of the header followed by exactly
the blocks of the files whose read succeeded (the failed file
contributes neither header nor content), and every readable file's
block still occurs inside the produced document. -/
theorem packFiles_read_failure_nonfatal (root : FSNode) (env : PackEnv)
    (files : List (List String)) (p : List String) (e : String)
    (hp : p ∈ files) (he : readFileWithStats root p = Except.error e) :
    (("Error reading file ") ++ env.display p ++ (": ") ++ e) ∈ (packFiles root env files).2 ∧
    (packFiles root env files).1 =
      packHeader env files ++ concatStrs (okBlocks root env.display files.length 0 files) ∧
    ∀ j pj b, files[j]? = some pj →
      fileBlock root env.display files.length j pj = Except.ok b →
      ∃ u v, (packFiles root env files).1 = u ++ (b ++ v) := by
  have h1 : (packFiles root env files).1 =
      packHeader env files ++ concatStrs (okBlocks root env.display files.length 0 files) := by
    rw [packFiles_eq]
  have h2 : (packFiles root env files).2 =
      failWarnings root env.display files.length 0 files := by
    rw [packFiles_eq]
  refine ⟨?_, h1, ?_⟩
  · rw [h2]
    exact mem_failWarnings root env.display files.length p e 0 files hp he
  · intro j pj b hj hb
    have hmem : b ∈ okBlocks root env.display files.length 0 files :=
      mem_okBlocks root env.display files.length files 0 j pj b hj
        (by simpa [Nat.zero_add] using hb)
    obtain ⟨u, v, huv⟩ := concatStrs_mem_split b _ hmem
    refine ⟨packHeader env files ++ u, v, ?_⟩
    rw [h1, huv, strAppendAssoc]

theorem packFiles_read_failure_nonfatal_witness :
    (("Error reading file ") ++ exampleEnv.display (["proj", "bad.txt"]) ++ (": ") ++
        ("EACCES: permission denied")) ∈
      (packFiles exampleFS exampleEnv
        ([["proj", "c.rs"], ["proj", "bad.txt"], ["proj", "d.xyz"]])).2 :=
  (packFiles_read_failure_nonfatal exampleFS exampleEnv
    ([["proj", "c.rs"], ["proj", "bad.txt"], ["proj", "d.xyz"]])
    (["proj", "bad.txt"]) ("EACCES: permission denied")
    (by simp)
    (by simp [readFileWithStats, exampleFS, FSNode.lookup, lookupChild])).1

theorem tocLines_eq_concat (disp : List String → String) :
    ∀ i files, tocLines disp i files = concatStrs (tocList disp i files) := by
  intro i files
  induction files generalizing i with
  | nil => rfl
  | cons a rest ih =>
    simp only [tocLines, tocList, concatStrs, ih]

theorem tocList_length (disp : List String → String) :
    ∀ i files, (tocList disp i files).length = files.length := by
  intro i files
  induction files generalizing i with
  | nil => rfl
  | cons a rest ih => simp [tocList, ih]

theorem tocList_getElem? (disp : List String → String) :
    ∀ files i j, (tocList disp i files)[j]? =
      (files[j]?).map (fun q => toString (i + j + 1) ++ (". ") ++ disp q ++ ("\n")) := by
  intro files
  induction files with
  | nil => intro i j; simp [tocList]
  | cons a rest ih =>
    intro i j
    cases j with
    | zero => simp [tocList]
    | succ j2 =>
      have harith : i + 1 + j2 + 1 = i + (j2 + 1) + 1 := by omega
      simp only [tocList, List.getElem?_cons_succ, ih (i + 1) j2, harith]

/-- C5: the packed document begins with the title line, a total-count
line whose count is the length of the input list, the
generation-timestamp line, a blank line, the "Files included" heading
and a table of contents with exactly one line per input file, the
`j`-th line reading `j+1. displayPath`, followed by a divider of 80 `=`
characters and a blank line. -/
theorem packFiles_header_and_toc (root : FSNode) (env : PackEnv)
    (files : List (List String)) :
    ∃ body,
      (packFiles root env files).1 =
        ("# Project Files Pack for LLM\n")
          ++ (("# Total files: ") ++ toString files.length ++ ("\n"))
          ++ (("# Generated: ") ++ env.now ++ ("\n\n"))
          ++ ("## Files included:\n")
          ++ concatStrs (tocList env.display 0 files)
          ++ (("\n") ++ String.mk (List.replicate 80 ('=')) ++ ("\n\n"))
          ++ body ∧
      (tocList env.display 0 files).length = files.length ∧
      ∀ j, (tocList env.display 0 files)[j]? =
        (files[j]?).map (fun q => toString (j + 1) ++ (". ") ++ env.display q ++ ("\n")) := by
  refine ⟨concatStrs (okBlocks root env.display files.length 0 files), ?_, tocList_length env.display 0 files, ?_⟩
  · have h1 : (packFiles root env files).1 =
        packHeader env files ++ concatStrs (okBlocks root env.display files.length 0 files) := by
      rw [packFiles_eq]
    rw [h1]
    simp only [packHeader, tocLines_eq_concat, eqDivider, dividerLength]
  · intro j
    have h := tocList_getElem? env.display files 0 j
    simpa [Nat.zero_add] using h

/-- C6: a readable file whose (lowercased) extension is `.rs` gets a
`# Language: rust` line in its block and its content wrapped in a fence
tagged `rust`, while a readable file with the unmapped extension `.xyz`
gets no language line and its content emitted unwrapped. -/
theorem language_line_and_fencing (root : FSNode) (disp : List String → String)
    (total i1 i2 : Nat) (p q : List String)
    (cp cq : String) (sp sq : Nat) (mp mq : String)
    (hpe : toLowerStr (extname (basename p)) = (".rs"))
    (hqe : toLowerStr (extname (basename q)) = (".xyz"))
    (hpr : readFileWithStats root p = Except.ok (cp, sp, mp))
    (hqr : readFileWithStats root q = Except.ok (cq, sq, mq)) :
    getLanguageId p = ("rust") ∧
    fileBlock root disp total i1 p = Except.ok
      (hashDivider ++ ("\n")
        ++ (("# FILE ") ++ toString (i1 + 1) ++ ("/") ++ toString total ++ (": ") ++ disp p ++ ("\n"))
        ++ (("# Size: ") ++ toFixed1KB sp ++ (" KB | Last modified: ") ++ mp ++ ("\n"))
        ++ ("# Language: rust\n")
        ++ (hashDivider ++ ("\n\n"))
        ++ (("```rust\n") ++ cp ++ ("\n```\n\n"))
        ++ (("\n") ++ eqDivider ++ ("\n\n"))) ∧
    getLanguageId q = ("") ∧
    fileBlock root disp total i2 q = Except.ok
      (hashDivider ++ ("\n")
        ++ (("# FILE ") ++ toString (i2 + 1) ++ ("/") ++ toString total ++ (": ") ++ disp q ++ ("\n"))
        ++ (("# Size: ") ++ toFixed1KB sq ++ (" KB | Last modified: ") ++ mq ++ ("\n"))
        ++ (hashDivider ++ ("\n\n"))
        ++ (cq ++ ("\n\n"))
        ++ (("\n") ++ eqDivider ++ ("\n\n"))) := by
  have hlp : getLanguageId p = ("rust") := by
    simp only [getLanguageId, hpe]
    decide
  have hlq : getLanguageId q = ("") := by
    simp only [getLanguageId, hqe]
    decide
  refine ⟨hlp, ?_, hlq, ?_⟩
  · simp [fileBlock, hpr, hlp]
  · simp [fileBlock, hqr, hlq]

theorem language_line_and_fencing_witness :
    getLanguageId (["proj", "c.rs"]) = ("rust") ∧ getLanguageId (["proj", "d.xyz"]) = ("") := by
  have h := language_line_and_fencing exampleFS exampleEnv.display 2 0 1
    (["proj", "c.rs"]) (["proj", "d.xyz"])
    ("fn main()\n") ("data\n") 13 5
    ("2025-01-06T00:00:00.000Z") ("2025-01-07T00:00:00.000Z")
    (by decide) (by decide)
    (by simp [readFileWithStats, exampleFS, FSNode.lookup, lookupChild])
    (by simp [readFileWithStats, exampleFS, FSNode.lookup, lookupChild])
  exact ⟨h.1, h.2.2.1⟩

/-- C7: with the filesystem, the display function and the file list
fixed, the packed document depends on the clock only through the
`# Generated:` line: the two outputs share a common prefix and a
common suffix around the timestamp, and the warning lists are
identical.  With the clock also fixed the two runs are byte-identical. -/
theorem packFiles_deterministic_mod_timestamp (root : FSNode) (disp : List String → String)
    (files : List (List String)) (t1 t2 : String) :
    ∃ pre post w,
      packFiles root (PackEnv.mk t1 disp) files = (pre ++ (t1 ++ post), w) ∧
      packFiles root (PackEnv.mk t2 disp) files = (pre ++ (t2 ++ post), w) := by
  refine ⟨("# Project Files Pack for LLM\n") ++ (("# Total files: ") ++ toString files.length ++ ("\n"))
      ++ ("# Generated: "),
    ("\n\n") ++ ("## Files included:\n") ++ tocLines disp 0 files
      ++ (("\n") ++ eqDivider ++ ("\n\n")) ++ (packBody root disp files.length 0 files).1,
    (packBody root disp files.length 0 files).2, ?_, ?_⟩
  · rw [Prod.ext_iff]
    refine ⟨?_, ?_⟩
    · apply strExt
      simp [packFiles, strDataAppend, List.append_assoc]
    · simp [packFiles]
  · rw [Prod.ext_iff]
    refine ⟨?_, ?_⟩
    · apply strExt
      simp [packFiles, strDataAppend, List.append_assoc]
    · simp [packFiles]

/-- C9: with zero entry points the handler stops at the
"No files or folders selected to pack." warning, and with entry points
that resolve to zero files it stops at the
"No files found in the selected resources." warning; both are warning
exits (not the error exit) and neither produces a document. -/
theorem nothing_to_pack_is_warning (root : FSNode) (env : PackEnv)
    (resources : List (List String)) :
    (resources = [] → runPack root env resources = PackOutcome.warnNoSelection) ∧
    (resources ≠ [] → getFilesFromResources root resources = Except.ok [] →
      runPack root env resources = PackOutcome.warnNoFiles) := by
  constructor
  · intro h
    subst h
    rfl
  · intro hne hok
    have hlen : resources.length ≠ 0 := by
      intro h0
      rw [List.length_eq_zero] at h0
      exact hne h0
    simp [runPack, hlen, hok]

theorem nothing_to_pack_is_warning_witness :
    runPack exampleFS exampleEnv [] = PackOutcome.warnNoSelection ∧
    runPack (FSNode.dir [("onlyhidden", exampleOnlyHidden)]) exampleEnv ([["onlyhidden"]]) =
      PackOutcome.warnNoFiles := by
  constructor
  · exact (nothing_to_pack_is_warning exampleFS exampleEnv []).1 rfl
  · exact (nothing_to_pack_is_warning (FSNode.dir [("onlyhidden", exampleOnlyHidden)]) exampleEnv
      ([["onlyhidden"]])).2 (by simp) (by simp [getFilesFromResources, FSNode.lookup, lookupChild,
        exampleOnlyHidden, walkEntries, strStartsWith, hiddenDot, Except.map])

/-- C10: the extension is lowercased before the table lookup, so two
paths whose lowercased extensions agree get the same language
identifier (`MAIN.PY` and `lib.Rs` map like their lowercase
counterparts), and a path with no extension or an extension outside
the table yields the empty identifier. -/
theorem getLanguageId_case_insensitive (p q r : List String)
    (hpq : toLowerStr (extname (basename p)) = toLowerStr (extname (basename q)))
    (hr : List.lookup (toLowerStr (extname (basename r))) langMap = none) :
    getLanguageId p = getLanguageId q ∧
    getLanguageId r = ("") ∧
    getLanguageId (["MAIN.PY"]) = ("python") ∧
    getLanguageId (["main.py"]) = ("python") ∧
    getLanguageId (["lib.Rs"]) = ("rust") ∧
    getLanguageId (["lib.rs"]) = ("rust") ∧
    getLanguageId (["noext"]) = ("") ∧
    getLanguageId (["file.xyz"]) = ("") := by
  refine ⟨?_, ?_, by decide, by decide, by decide, by decide, by decide, by decide⟩
  · simp [getLanguageId, hpq]
  · simp [getLanguageId, hr]

theorem getLanguageId_case_insensitive_witness :
    getLanguageId (["A.JS"]) = getLanguageId (["b.js"]) ∧
    getLanguageId (["zzz.unknownext"]) = ("") := by
  have h := getLanguageId_case_insensitive (["A.JS"]) (["b.js"]) (["zzz.unknownext"])
    (by decide) (by decide)
  exact ⟨h.1, h.2.1⟩
